import Mathlib

/-!
Verification of the faceteer/facet data-access layer: composite-key
construction with CRC-based sharding (src/hash/crc-shard.ts, src/keys.ts),
the condition-expression compiler (src/condition.ts), and the batch
write/delete/get engines (lib/put.ts, lib/delete.ts, src/get.ts).

The JavaScript sources are embedded shallowly: numbers that hold integral
values are modelled as Int/Nat, JS objects used as string-keyed maps are
modelled as association lists with JS insertion-order semantics, promise
rejection is modelled with Except, and the remote DynamoDB client is a
parameter giving the response of each wire call.
-/

/- ### JS-style hex rendering and parsing

Model of Number.prototype.toString(16) for nonnegative integers: repeated
division by 16, lowercase digits.  Written fuel-style (the fuel is always
sufficient) so that it evaluates by kernel reduction. -/
def toHexCore : Nat → Nat → List Char → List Char
  | 0, _, ds => ds
  | fuel + 1, n, ds =>
    if n < 16 then Nat.digitChar n :: ds
    else toHexCore fuel (n / 16) (Nat.digitChar (n % 16) :: ds)

/-- Rendering of a natural number in base 16, as JS `n.toString(16)`. -/
def natToHexString (n : Nat) : String :=
  (toHexCore (n + 1) n []).asString

/-- Rendering of an integer in base 16, as JS `i.toString(16)`:
a leading minus sign followed by the digits of the absolute value. -/
def intToHexString (i : Int) : String :=
  if i < 0 then "-" ++ natToHexString (-i).toNat else natToHexString i.toNat

/-- Numeric value of one lowercase hex digit (0 for any other character). -/
def hexDigitVal (c : Char) : Nat :=
  match c with
  | '0' => 0 | '1' => 1 | '2' => 2 | '3' => 3
  | '4' => 4 | '5' => 5 | '6' => 6 | '7' => 7
  | '8' => 8 | '9' => 9 | 'a' => 10 | 'b' => 11
  | 'c' => 12 | 'd' => 13 | 'e' => 14 | 'f' => 15
  | _ => 0

/-- Decode a big-endian hex digit string back to its numeric value. -/
def parseHexNat (s : String) : Nat :=
  s.data.foldl (fun a c => 16 * a + hexDigitVal c) 0

/-- Model of JS String.prototype.padStart with a one-character pad string. -/
def jsPadStart (s : String) (targetLength : Nat) (pad : Char) : String :=
  if targetLength ≤ s.length then s
  else (List.replicate (targetLength - s.length) pad).asString ++ s

/-- Model of JS ToInt32 (the `~~` operator on an integral value):
wrap into the interval [-2^31, 2^31). -/
def toInt32 (n : Int) : Int :=
  (n + 2 ^ 31) % 2 ^ 32 - 2 ^ 31

/- ### CRC32 (the crc-32 npm package, `CRC32.bstr`)

The package computes the standard reflected CRC-32 (polynomial 0xEDB88320,
initial value 0xFFFFFFFF, final complement) over the character codes of the
string, masking each code to its low byte.  We model the 32-bit value as a
Nat below 2^32; the package returns the signed reinterpretation, which the
caller immediately maps back with an unsigned shift. -/
def crcRound (x : Nat) : Nat :=
  if x % 2 = 1 then (x / 2) ^^^ 0xEDB88320 else x / 2

/-- One byte of CRC32: xor the byte into the low bits, then eight shift
rounds.  Equal to the table formulation `(c >>> 8) ^ T[(c ^ b) & 0xFF]`
used by the npm package. -/
def crcByteStep (c b : Nat) : Nat :=
  crcRound^[8] (c ^^^ b)

/-- Unsigned CRC-32 of a string, per `CRC32.bstr` (each character code
taken mod 256; astral characters, which JS sees as two UTF-16 units, are
outside the model). -/
def crc32u (s : String) : Nat :=
  (s.data.foldl (fun c ch => crcByteStep c (ch.toNat % 256)) 0xFFFFFFFF) ^^^ 0xFFFFFFFF

/-- The bucket-assignment hash used by crcShard: `CRC32.bstr(string) >>> 1`
(the unsigned shift reinterprets the signed CRC as a Nat and halves it). -/
def crcHash (s : String) : Nat := crc32u s / 2

/- ### crcShard (src/hash/crc-shard.ts)

`shardCount = shardCount < 1 ? 1 : ~~shardCount` then
`((CRC32.bstr(string) >>> 1) % shardCount).toString(16).padStart(padLength, '0')`
where `padLength = (shardCount - 1).toString(16).length`.  JS `%` on
integral values is truncated remainder, Int.tmod.  (A wrapped shard count
of exactly 0, i.e. a multiple of 2^32, yields NaN in JS and is outside the
model.) -/
def crcShard (s : String) (shardCount : Int) : String :=
  let sc : Int := if shardCount < 1 then 1 else toInt32 shardCount
  let padLength := (intToHexString (sc - 1)).length
  jsPadStart (intToHexString (Int.tmod (crcHash s) sc)) padLength '0'

/- ### Key construction (src/keys.ts) -/

/-- A JavaScript runtime value as far as buildKey inspects one.  Numbers
are modelled at integral values; a Date is abstracted by its two string
renderings (toISOString and the default toString). -/
inductive JsValue where
  | str (s : String)
  | num (n : Int)
  | bool (b : Bool)
  | bigint (n : Int)
  | date (iso : String) (asStr : String)
  | null
  | undefined
  | obj
  | arr
deriving DecidableEq

/-- ShardConfiguration from src/keys.ts: `keys` are the field names hashed
together, `count` the bucket count. -/
structure ShardConfiguration where
  keys : List String
  count : Int
deriving DecidableEq

/-- KeyConfiguration from src/keys.ts.  The source names the second field
`prefix`. -/
structure KeyConfiguration where
  keys : List String
  pfx : String
  shard : Option ShardConfiguration
deriving DecidableEq

/-- A record, as buildKey reads one: a total map from field names to
values, `undefined` standing for an absent field. -/
def JsRecord : Type := String → JsValue

/-- JS String(value) as used by Array.prototype.join when concatenating
the shard-key values to hash. -/
def jsValueToString (v : JsValue) : String :=
  match v with
  | .str s => s
  | .num n => toString n
  | .bool b => if b then "true" else "false"
  | .bigint n => toString n
  | .date _ asStr => asStr
  | .null => "null"
  | .undefined => "undefined"
  | .obj => "[object Object]"
  | .arr => ""

/-- JS loose inequality `value != undefined`: false exactly for null and
undefined. -/
def jsNotEqUndefined (v : JsValue) : Bool :=
  match v with
  | .null => false
  | .undefined => false
  | _ => true

/-- Truthiness of the optional `shard` argument of buildKey: the source
guards with `if (shard)`, which holds when the argument is present and
nonzero. -/
def shardArgTruthy (shard : Option Int) : Bool :=
  match shard with
  | some s => s != 0
  | none => false

/-- The shard segment pushed by buildKey when a shard configuration is
present: the explicit-bucket branch when `if (shard)` holds, otherwise the
hash of the concatenated shard-key values. -/
def buildKeyShardSegment (shardCfg : ShardConfiguration) (model : JsRecord)
    (shard : Option Int) : String :=
  if shardArgTruthy shard then
    let padLength := (intToHexString (shardCfg.count - 1)).length
    jsPadStart (intToHexString (shard.getD 0)) padLength '0'
  else
    let valuesToHash := shardCfg.keys.filterMap fun k =>
      if jsNotEqUndefined (model k) then some (model k) else none
    let keyToHash := String.join (valuesToHash.map jsValueToString)
    crcShard keyToHash shardCfg.count

/-- The segment a configured key field contributes, per the `typeof`
switch of buildKey: primitives are stringified, a Date becomes its ISO
string, anything else contributes nothing. -/
def buildKeyFieldSegment (v : JsValue) : Option String :=
  match v with
  | .bigint n => some (toString n)
  | .bool b => some (if b then "true" else "false")
  | .num n => some (toString n)
  | .str s => some s
  | .date iso _ => some iso
  | _ => none

/-- buildKey from src/keys.ts: prefix, then (when configured) the shard
segment, then the stringified configured fields, joined with the
delimiter. -/
def buildKey (keyConfig : KeyConfiguration) (model : JsRecord)
    (delimiter : String) (shard : Option Int) : String :=
  let withShard :=
    match keyConfig.shard with
    | some shardCfg => [keyConfig.pfx, buildKeyShardSegment shardCfg model shard]
    | none => [keyConfig.pfx]
  let compositeKey := withShard ++ keyConfig.keys.filterMap
    fun k => buildKeyFieldSegment (model k)
  String.intercalate delimiter compositeKey

/- ### Condition-expression compiler (src/condition.ts) -/

/-- A DynamoDB wire attribute value as produced by the converter for the
scalar operand types of a condition (string | number | Date). -/
inductive AttributeValue where
  | S (s : String)
  | N (s : String)
  | NULL
deriving DecidableEq

/-- A condition operand: string | number | Date. -/
inductive CondOperand where
  | str (s : String)
  | num (n : Int)
  | date (iso : String)
deriving DecidableEq

/-- The external converter's scalar conversion, Converter.input: strings
to S, numbers to N, dates to their ISO string as S; an absent operand
(undefined) to NULL. -/
def converterInput (v : Option CondOperand) : AttributeValue :=
  match v with
  | some (.str s) => .S s
  | some (.num n) => .N (toString n)
  | some (.date iso) => .S iso
  | none => .NULL

/-- The boolean combinator token of a LogicEvaluation: 'OR' or 'AND'. -/
inductive LogicOp where
  | or
  | and
deriving DecidableEq

def LogicOp.token : LogicOp → String
  | .or => "OR"
  | .and => "AND"

/-- A ConditionExpression tree: a flat leaf `[field, operator, operand...]`
(the operator kept as its runtime string token), a LogicEvaluation
`[left, OR|AND, right]`, or a NotExpression `{NOT: inner}`. -/
inductive CondExpr where
  | leaf (field : String) (op : String) (args : List CondOperand)
  | logic (left : CondExpr) (op : LogicOp) (right : CondExpr)
  | notE (inner : CondExpr)
deriving DecidableEq

/-- CompiledExpression: name placeholders, value placeholders and the
statement.  The two placeholder maps are JS objects built by insertion;
they are modelled as association lists in insertion order. -/
structure CompiledExpression where
  names : List (String × String)
  values : List (String × AttributeValue)
  expression : String
deriving DecidableEq

/-- The placeholder generated by `nextPrefix` at a given counter value:
the running prefix, an underscore, and the counter in hex.  Each
invocation of the compiler uses counter values 0 and 1 only. -/
def nextPfx (pfx : String) (counter : Nat) : String :=
  pfx ++ "_" ++ natToHexString counter

/-- buildConditionExpression from src/condition.ts.  A thrown error
(`Operator ... is not defined`) is modelled as Except.error.  Object.assign
of the children's placeholder maps is list append (their key sets are
disjoint, proved below). -/
def buildConditionExpression : CondExpr → String → Except String CompiledExpression
  | .notE inner, pfx =>
    match buildConditionExpression inner (nextPfx pfx 0) with
    | .error e => .error e
    | .ok notExpression =>
      .ok { notExpression with
            expression := "NOT (" ++ notExpression.expression ++ ")" }
  | .logic l op r, pfx =>
    match buildConditionExpression l (nextPfx pfx 0) with
    | .error e => .error e
    | .ok first =>
      match buildConditionExpression r (nextPfx pfx 1) with
      | .error e => .error e
      | .ok second =>
        .ok { names := first.names ++ second.names
              values := first.values ++ second.values
              expression := "(" ++ first.expression ++ ") " ++ op.token
                ++ " (" ++ second.expression ++ ")" }
  | .leaf field op args, pfx =>
    if op = "=" ∨ op = "<>" ∨ op = "<" ∨ op = "<=" ∨ op = ">" ∨ op = ">=" then
      let placeholder := nextPfx pfx 0
      let namePlaceholder := "#" ++ placeholder
      let valuePlaceholder := ":" ++ placeholder
      .ok { names := [(namePlaceholder, field)]
            values := [(valuePlaceholder, converterInput (args.get? 0))]
            expression := namePlaceholder ++ " " ++ op ++ " " ++ valuePlaceholder }
    else if op = "begins_with" then
      let placeholder := nextPfx pfx 0
      let namePlaceholder := "#" ++ placeholder
      let valuePlaceholder := ":" ++ placeholder
      .ok { names := [(namePlaceholder, field)]
            values := [(valuePlaceholder, converterInput (args.get? 0))]
            expression := "begins_with (" ++ namePlaceholder ++ ", "
              ++ valuePlaceholder ++ ")" }
    else if op = "between" then
      let placeholder := nextPfx pfx 0
      let namePlaceholder := "#" ++ placeholder
      let leftValuePlaceholder := ":" ++ placeholder ++ "_L"
      let rightValuePlaceholder := ":" ++ placeholder ++ "_R"
      .ok { names := [(namePlaceholder, field)]
            values := [(leftValuePlaceholder, converterInput (args.get? 0)),
                       (rightValuePlaceholder, converterInput (args.get? 1))]
            expression := namePlaceholder ++ " BETWEEN " ++ leftValuePlaceholder
              ++ " AND " ++ rightValuePlaceholder }
    else if op = "exists" then
      let placeholder := nextPfx pfx 0
      let namePlaceholder := "#" ++ placeholder
      .ok { names := [(namePlaceholder, field)]
            values := []
            expression := "attribute_exists (" ++ namePlaceholder ++ ")" }
    else if op = "not_exists" then
      let placeholder := nextPfx pfx 0
      let namePlaceholder := "#" ++ placeholder
      .ok { names := [(namePlaceholder, field)]
            values := []
            expression := "attribute_not_exists (" ++ namePlaceholder ++ ")" }
    else
      .error ("Operator " ++ op ++ " is not defined")

/- ### JS object / association-list helpers

JS objects used as maps (`writeRequests`, `itemsByKey`): assignment to an
existing key replaces the value in place, assignment to a new key appends,
`delete` removes, Object.values lists values in key-insertion order. -/
def objLookup {β : Type} (m : List (String × β)) (k : String) : Option β :=
  (m.find? fun p => p.1 = k).map Prod.snd

def objUpsert {β : Type} (m : List (String × β)) (k : String) (v : β) :
    List (String × β) :=
  if (m.find? fun p => p.1 = k).isSome then
    m.map fun p => if p.1 = k then (k, v) else p
  else
    m ++ [(k, v)]

def objErase {β : Type} (m : List (String × β)) (k : String) :
    List (String × β) :=
  m.filter fun p => ¬ p.1 = k

def objValues {β : Type} (m : List (String × β)) : List β :=
  m.map Prod.snd

/-- Splitting a record list into store-sized chunks, as the
`while (recordsToBatch.length >= 1) batches.push(recordsToBatch.splice(0, n))`
loop.  Fuel-style with fuel the list length, which always suffices. -/
def chunksOfFuel {α : Type} (size : Nat) : Nat → List α → List (List α)
  | 0, _ => []
  | _ + 1, [] => []
  | fuel + 1, a :: l => (a :: l).take size :: chunksOfFuel size fuel ((a :: l).drop size)

def chunksOf {α : Type} (size : Nat) (l : List α) : List (List α) :=
  chunksOfFuel size l.length l

/- ### Batch put engine (lib/put.ts) -/

/-- PutResponse from lib/put.ts; a failed entry pairs the record with its
error (modelled as a message string). -/
structure PutResponse (R : Type) where
  put : List R
  failed : List (R × String)
  hasFailures : Bool
deriving DecidableEq

/-- The retry loop of putBatch/deleteBatch:
`while (unprocessed.length > 0 && retries < 5)` re-issues the outstanding
requests; call k of the store is the k-th batchWriteItem call of this
chunk (call 0 was the initial one).  A rejected call propagates as a
thrown error.  The loop communicates nothing to its caller except a
possible throw: the final reporting reads the FIRST response again. -/
def writeRetryLoop (calls : Nat → Except String (List String)) :
    Nat → List String → Nat → Except String Unit
  | 0, _, _ => .ok ()
  | fuel + 1, unprocessed, retries =>
    if unprocessed = [] ∨ 5 ≤ retries then .ok ()
    else
      match calls (retries + 1) with
      | .error e => .error e
      | .ok next => writeRetryLoop calls fuel next (retries + 1)

/-- One step of the reporting loop at the end of putBatch: an unprocessed
entry still present in itemsByKey is moved to the failed list with the
explicit error and deleted from the map. -/
def reportStep {R : Type} (acc : List (String × R) × List (R × String))
    (k : String) : List (String × R) × List (R × String) :=
  match objLookup acc.1 k with
  | some failedItem => (objErase acc.1 k, acc.2 ++ [(failedItem, "Item was not processed")])
  | none => acc

/-- The reporting loop at the end of putBatch: walk the unprocessed list
of the first response. -/
def reportUnprocessed {R : Type} (itemsByKey : List (String × R))
    (unprocessed : List String) : List (String × R) × List (R × String) :=
  unprocessed.foldl reportStep (itemsByKey, [])

/-- putBatch from lib/put.ts.  `keyOf` is `facet.pk(record) + facet.sk(record)`;
the record codec round trip `facet.out(facet.in(record))` is taken as the
identity (the codec is an external collaborator).  `calls k` is the store's
reply to the k-th batchWriteItem call of this chunk: either a rejection or
the list of unprocessed keys. -/
def putBatchModel {R : Type} (keyOf : R → String) (batchToPut : List R)
    (calls : Nat → Except String (List String)) :
    Except String (PutResponse R) :=
  let itemsByKey := batchToPut.foldl (fun m r => objUpsert m (keyOf r) r) []
  match calls 0 with
  | .error e => .error e
  | .ok unprocessedFirst =>
    match writeRetryLoop calls 5 unprocessedFirst 0 with
    | .error e => .error e
    | .ok _ =>
      let after := reportUnprocessed itemsByKey unprocessedFirst
      .ok { put := objValues after.1
            failed := after.2
            hasFailures := decide (0 < after.2.length) }

/-- One iteration of the putItems aggregation loop over the settled chunk
results: a rejected chunk contributes every record paired with the
rejection reason to `failed`; a fulfilled chunk contributes its own put
and failed lists. -/
def putChunkStep {R : Type} (keyOf : R → String)
    (store : Nat → Nat → Except String (List String))
    (acc : PutResponse R) (p : Nat × List R) : PutResponse R :=
  match putBatchModel keyOf p.2 (store p.1) with
  | .error e =>
      { acc with failed := acc.failed ++ p.2.map fun failedItem => (failedItem, e) }
  | .ok resp =>
      { acc with put := acc.put ++ resp.put, failed := acc.failed ++ resp.failed }

/-- putItems from lib/put.ts: split into chunks of 25, run putBatch on
every chunk (Promise.allSettled), map a rejected chunk to per-record
failures carrying the rejection reason, and concatenate the fulfilled
chunks' outcomes.  `store i k` is the reply to chunk i's k-th call. -/
def putItemsModel {R : Type} (keyOf : R → String) (records : List R)
    (store : Nat → Nat → Except String (List String)) : PutResponse R :=
  let batches := chunksOf 25 records
  let agg := batches.enum.foldl (putChunkStep keyOf store)
    { put := [], failed := [], hasFailures := false }
  { agg with hasFailures := decide (0 < agg.failed.length) }

/- ### Batch delete engine (lib/delete.ts) -/

/-- DeleteResponse from lib/delete.ts. -/
structure DeleteResponse (R : Type) where
  deleted : List R
  failed : List (R × String)
  hasFailures : Bool
deriving DecidableEq

/-- deleteBatch from lib/delete.ts.  Identical shape to putBatch, except
that the final reporting loop guards on `unprocessedRequest.PutRequest?.Item`,
which an unprocessed entry of a delete batch (a DeleteRequest) never
satisfies — so the loop never reports a failure and every deduplicated
record is counted as deleted. -/
def deleteBatchModel {R : Type} (keyOf : R → String) (batchToDelete : List R)
    (calls : Nat → Except String (List String)) :
    Except String (DeleteResponse R) :=
  let itemsByKey := batchToDelete.foldl (fun m r => objUpsert m (keyOf r) r) []
  match calls 0 with
  | .error e => .error e
  | .ok unprocessedFirst =>
    match writeRetryLoop calls 5 unprocessedFirst 0 with
    | .error e => .error e
    | .ok _ =>
      .ok { deleted := objValues itemsByKey
            failed := []
            hasFailures := decide (0 < ([] : List (R × String)).length) }

/-- One iteration of the deleteItems aggregation loop over the settled
chunk results. -/
def deleteChunkStep {R : Type} (keyOf : R → String)
    (store : Nat → Nat → Except String (List String))
    (acc : DeleteResponse R) (p : Nat × List R) : DeleteResponse R :=
  match deleteBatchModel keyOf p.2 (store p.1) with
  | .error e =>
      { acc with failed := acc.failed ++ p.2.map fun failedItem => (failedItem, e) }
  | .ok resp =>
      { acc with deleted := acc.deleted ++ resp.deleted, failed := acc.failed ++ resp.failed }

/-- deleteItems from lib/delete.ts: chunks of 25, Promise.allSettled,
rejected chunks mapped to per-record failures, fulfilled chunks
concatenated. -/
def deleteItemsModel {R : Type} (keyOf : R → String) (records : List R)
    (store : Nat → Nat → Except String (List String)) : DeleteResponse R :=
  let batches := chunksOf 25 records
  let agg := batches.enum.foldl (deleteChunkStep keyOf store)
    { deleted := [], failed := [], hasFailures := false }
  { agg with hasFailures := decide (0 < agg.failed.length) }

/- ### Batch get engine (src/get.ts) -/

/-- The retry loop of getBatch: `while (unprocessed.length > 0 && attempts < 10)`
re-issues the outstanding keys, gathering the records of every response;
`calls k` is the reply (records decoded by `facet.out`, unprocessed keys)
to the k-th batchGetItem call. -/
def getRetryLoop {R : Type} (calls : Nat → List R × List String) :
    Nat → List String → Nat → List R
  | 0, _, _ => []
  | fuel + 1, unprocessed, attempts =>
    if unprocessed = [] ∨ 10 ≤ attempts then []
    else
      (calls (attempts + 1)).1 ++ getRetryLoop calls fuel (calls (attempts + 1)).2 (attempts + 1)

/-- getBatch from src/get.ts: one initial call, then at most 10 retries of
the unprocessed keys; returns only the gathered records.  Keys that are
still unprocessed when the loop gives up are not reported anywhere. -/
def getBatchModel {Q R : Type} (queries : List Q)
    (calls : Nat → List R × List String) : List R :=
  (calls 0).1 ++ getRetryLoop calls 10 (calls 0).2 0

/-- getBatchItems from src/get.ts: chunks of 100, Promise.all, flatten. -/
def getBatchItemsModel {Q R : Type} (queries : List Q)
    (store : Nat → Nat → List R × List String) : List R :=
  ((chunksOf 100 queries).enum.map fun p => getBatchModel p.2 (store p.1)).flatten

/- ### Claim C1: explicit shard 0 -/

/-- The sharded key configuration of the spec's sharded-key scenario. -/
def c1Cfg : KeyConfiguration :=
  { keys := ["postId"], pfx := "#STATUS", shard := some { keys := ["postId"], count := 4 } }

/-- A record with postId "abc" and nothing else. -/
def c1Record : JsRecord :=
  fun k => if k = "postId" then .str "abc" else .undefined

/-- Claim C1 (code bug): with an explicit shard argument of 0, buildKey
does NOT use bucket "0" literally; the `if (shard)` truthiness check makes
it fall back to hash-based shard computation, here bucket "1" for postId
"abc", exactly as if no shard had been passed. -/
theorem c1_explicit_shard_zero_falls_back :
    buildKey c1Cfg c1Record "_" (some 0) = buildKey c1Cfg c1Record "_" none
    ∧ buildKey c1Cfg c1Record "_" (some 0) = "#STATUS_1_abc"
    ∧ buildKey c1Cfg c1Record "_" (some 0) ≠ "#STATUS_0_abc" := by
  refine ⟨by decide, by decide, by decide⟩

/- ### Claim C2: retried unprocessed items still reported failed -/

/-- Four records (standing for themselves: the key function is the
identity) in one write chunk. -/
def c2Records : List String := ["A", "B", "C", "D"]

/-- A store whose first batchWriteItem call reports A, B, C unprocessed
and whose retry call reports none unprocessed. -/
def c2Store : Nat → Nat → Except String (List String) :=
  fun _ call => if call = 0 then .ok ["A", "B", "C"] else .ok ([] : List String)

/-- Claim C2 (code bug): after the retry succeeds for all three
unprocessed items, putItems still reports them as failed ("Item was not
processed") and not as put — putBatch's final reporting loop re-reads the
first response's unprocessed list, which the retry loop never updates. -/
theorem c2_successful_retry_still_reported_failed :
    (putItemsModel id c2Records c2Store).failed =
      [("A", "Item was not processed"), ("B", "Item was not processed"),
       ("C", "Item was not processed")]
    ∧ (putItemsModel id c2Records c2Store).put = ["D"] := by
  refine ⟨by decide, by decide⟩

/- ### Hex rendering: correctness lemmas -/

/-- The digit list of a natural number in base 16, most significant digit
first (the reference form of toHexCore, convenient for induction). -/
def toHexList (n : Nat) : List Char :=
  if n < 16 then [Nat.digitChar n]
  else toHexList (n / 16) ++ [Nat.digitChar (n % 16)]
termination_by n
decreasing_by exact Nat.div_lt_self (by omega) (by omega)

theorem toHexCore_eq_toHexList (fuel : Nat) :
    ∀ n ds, n < fuel → toHexCore fuel n ds = toHexList n ++ ds := by
  induction fuel with
  | zero => intro n ds h; omega
  | succ fuel ih =>
    intro n ds h
    rw [toHexCore, toHexList]
    by_cases h16 : n < 16
    · simp [h16]
    · rw [if_neg h16, if_neg h16,
        ih (n / 16) _ (lt_of_lt_of_le (Nat.div_lt_self (by omega) (by omega)) (by omega)),
        List.append_assoc]
      rfl

theorem natToHexString_eq (n : Nat) : natToHexString n = (toHexList n).asString := by
  rw [natToHexString, toHexCore_eq_toHexList (n + 1) n [] (by omega), List.append_nil]

theorem hexDigitVal_digitChar (m : Nat) (h : m < 16) :
    hexDigitVal (Nat.digitChar m) = m := by
  interval_cases m <;> rfl

theorem foldl_hex_toHexList (n : Nat) :
    ∀ a, List.foldl (fun a c => 16 * a + hexDigitVal c) a (toHexList n)
      = a * 16 ^ (toHexList n).length + n := by
  induction n using Nat.strong_induction_on with
  | _ n ih =>
    intro a
    rw [toHexList]
    by_cases h16 : n < 16
    · simp [h16, hexDigitVal_digitChar n h16]
      ring
    · rw [if_neg h16, List.foldl_append,
        ih (n / 16) (Nat.div_lt_self (by omega) (by omega)) a]
      simp [hexDigitVal_digitChar (n % 16) (Nat.mod_lt n (by omega)), pow_succ]
      have hdm := Nat.div_add_mod n 16
      ring_nf
      omega

theorem parseHexNat_natToHexString (n : Nat) :
    parseHexNat (natToHexString n) = n := by
  rw [natToHexString_eq, parseHexNat]
  show List.foldl _ 0 (toHexList n) = n
  rw [foldl_hex_toHexList n 0]
  omega

theorem length_toHexList (n : Nat) :
    (toHexList n).length = Nat.log 16 n + 1 := by
  induction n using Nat.strong_induction_on with
  | _ n ih =>
    rw [toHexList]
    by_cases h16 : n < 16
    · simp [h16, Nat.log_eq_zero_iff]
    · rw [if_neg h16]
      have hlog : Nat.log 16 (n / 16) = Nat.log 16 n - 1 := Nat.log_div_base 16 n
      have hpos : 0 < Nat.log 16 n := Nat.log_pos (by omega) (by omega)
      simp [ih (n / 16) (Nat.div_lt_self (by omega) (by omega)), hlog]
      omega

theorem natToHexString_length (n : Nat) :
    (natToHexString n).length = Nat.log 16 n + 1 := by
  rw [natToHexString_eq]
  show (toHexList n).length = _
  exact length_toHexList n

theorem natToHexString_length_mono {m n : Nat} (h : m ≤ n) :
    (natToHexString m).length ≤ (natToHexString n).length := by
  rw [natToHexString_length, natToHexString_length]
  exact Nat.add_le_add_right (Nat.log_mono_right h) 1

theorem jsPadStart_length (s : String) (t : Nat) (c : Char) :
    (jsPadStart s t c).length = max t s.length := by
  rw [jsPadStart]
  by_cases h : t ≤ s.length
  · simp [h, Nat.max_eq_right h]
  · rw [if_neg h, String.length_append,
      show (List.replicate (t - s.length) c).asString.length
        = (List.replicate (t - s.length) c).length from rfl,
      List.length_replicate]
    omega

theorem parseHexNat_padStart_zero (s : String) (t : Nat) :
    parseHexNat (jsPadStart s t '0') = parseHexNat s := by
  rw [jsPadStart]
  by_cases h : t ≤ s.length
  · simp [h]
  · rw [if_neg h, parseHexNat, parseHexNat, String.data_append]
    show List.foldl _ 0 ((List.replicate (t - s.length) '0') ++ s.data) = _
    rw [List.foldl_append]
    congr 1
    generalize t - s.length = k
    induction k with
    | zero => rfl
    | succ k ihk => rw [List.replicate_succ, List.foldl_cons]; exact ihk

/- ### CRC32 stays below 2^32, so the hash is below 2^31 -/

theorem crcRound_lt {x : Nat} (h : x < 2 ^ 32) : crcRound x < 2 ^ 32 := by
  rw [crcRound]
  by_cases hp : x % 2 = 1
  · rw [if_pos hp]
    exact Nat.xor_lt_two_pow (by omega) (by norm_num)
  · rw [if_neg hp]
    omega

theorem crcRound_iterate_lt (k : Nat) {x : Nat} (h : x < 2 ^ 32) :
    crcRound^[k] x < 2 ^ 32 := by
  induction k generalizing x with
  | zero => simpa using h
  | succ k ih =>
    rw [Function.iterate_succ_apply]
    exact ih (crcRound_lt h)

theorem crcByteStep_lt {c b : Nat} (hc : c < 2 ^ 32) (hb : b < 2 ^ 32) :
    crcByteStep c b < 2 ^ 32 :=
  crcRound_iterate_lt 8 (Nat.xor_lt_two_pow hc hb)

theorem crc32u_lt (s : String) : crc32u s < 2 ^ 32 := by
  rw [crc32u]
  refine Nat.xor_lt_two_pow ?_ (by norm_num)
  have : ∀ (l : List Char) (c : Nat), c < 2 ^ 32 →
      List.foldl (fun c ch => crcByteStep c (ch.toNat % 256)) c l < 2 ^ 32 := by
    intro l
    induction l with
    | nil => intro c hc; simpa using hc
    | cons ch l ih =>
      intro c hc
      exact ih _ (crcByteStep_lt hc (by have := Nat.mod_lt ch.toNat (show 0 < 256 by norm_num); omega))
  exact this s.data 0xFFFFFFFF (by norm_num)

theorem crcHash_lt (s : String) : crcHash s < 2 ^ 31 := by
  have := crc32u_lt s
  rw [crcHash]
  omega

/- ### Claim C6: the crcShard contract -/

theorem toInt32_eq_self {i : Int} (h0 : 0 ≤ i) (h1 : i < 2 ^ 31) : toInt32 i = i := by
  rw [toInt32, Int.emod_eq_of_lt (by omega) (by omega)]
  omega

theorem intToHexString_ofNat (k : Nat) : intToHexString (k : Int) = natToHexString k := by
  rw [intToHexString, if_neg (by omega)]
  norm_num

theorem tmod_ofNat (a b : Nat) :
    Int.tmod (a : Int) (b : Int) = ((a % b : Nat) : Int) := rfl

/-- Claim C6 counterexample: the claim quantifies over every integer n,
but at n = 2^31 the `~~shardCount` ToInt32 wrap makes the pad width 9
(the hex rendering of the wrapped count -2^31 - 1 is "-80000001"), while
the number of hex digits of n - 1 = 0x7fffffff is 8 — the produced bucket
string does not have the claimed width. -/
theorem c6_counterexample_width_at_two_pow_31 :
    (1 : Int) ≤ 2 ^ 31
    ∧ crcShard "" ((2 : Int) ^ 31) = "000000000"
    ∧ (crcShard "" ((2 : Int) ^ 31)).length = 9
    ∧ (natToHexString (2 ^ 31 - 1)).length = 8 := by
  refine ⟨by decide, by decide, by decide, by decide⟩

/-- Claim C6 (amended): for every string s and every integer bucket count
n with 1 ≤ n < 2^31, crcShard returns the left-zero-padded lowercase hex
rendering of `hash(s) mod n`, of width the number of hex digits of n - 1,
whose decoded value is `hash(s) mod n` and lies in [0, n); and for every
n < 1 the count is clamped to 1, so every string maps to "0".  (The
function is pure by construction.)  The original claim's "every integer n"
fails at n = 2^31 — see the counterexample. -/
theorem c6_crcShard_contract :
    (∀ (s : String) (n : Nat), 1 ≤ n → n < 2 ^ 31 →
      parseHexNat (crcShard s (n : Int)) = crcHash s % n
      ∧ crcHash s % n < n
      ∧ (crcShard s (n : Int)).length = (natToHexString (n - 1)).length)
    ∧ (∀ (s : String) (m : Int), m < 1 → crcShard s m = "0") := by
  constructor
  · intro s n h1 h2
    have hns : ¬ ((n : Int) < 1) := by exact_mod_cast Nat.not_lt.mpr h1
    have hsc : (if (n : Int) < 1 then (1 : Int) else toInt32 (n : Int)) = (n : Int) := by
      rw [if_neg hns, toInt32_eq_self (by omega) (by exact_mod_cast h2)]
    have hsub : ((n : Int) - 1) = ((n - 1 : Nat) : Int) := by omega
    have key : crcShard s (n : Int)
        = jsPadStart (natToHexString (crcHash s % n))
            ((natToHexString (n - 1)).length) '0' := by
      rw [crcShard]
      simp only [hsc, hsub, intToHexString_ofNat, tmod_ofNat]
    refine ⟨?_, Nat.mod_lt _ (by omega), ?_⟩
    · rw [key, parseHexNat_padStart_zero, parseHexNat_natToHexString]
    · rw [key, jsPadStart_length]
      exact Nat.max_eq_left (natToHexString_length_mono (by
        have := Nat.mod_lt (crcHash s) (show 0 < n by omega)
        omega))
  · intro s m hm
    have h1 : Int.tmod ((crcHash s : Nat) : Int) 1 = ((0 : Nat) : Int) := by
      rw [show (1 : Int) = ((1 : Nat) : Int) from rfl, tmod_ofNat, Nat.mod_one]
    rw [crcShard]
    simp only [if_pos hm, h1]
    decide

/-- Witness for the amended C6 contract at s = "abc", n = 4 and at a
clamped count of -3. -/
theorem c6_crcShard_contract_witness :
    (parseHexNat (crcShard "abc" ((4 : Nat) : Int)) = crcHash "abc" % 4
      ∧ crcHash "abc" % 4 < 4
      ∧ (crcShard "abc" ((4 : Nat) : Int)).length = (natToHexString (4 - 1)).length)
    ∧ crcShard "xyz" (-3) = "0" :=
  ⟨c6_crcShard_contract.1 "abc" 4 (by decide) (by decide),
   c6_crcShard_contract.2 "xyz" (-3) (by decide)⟩

/- ### Claim C5: placeholder uniqueness -/

/-- Number of attribute-name placeholders a compiled tree must register:
one per leaf (specification-side count for comparison with the code). -/
def specNameSlots : CondExpr → Nat
  | .leaf _ _ _ => 1
  | .logic l _ r => specNameSlots l + specNameSlots r
  | .notE inner => specNameSlots inner

/-- Number of attribute-value placeholders a compiled tree must register:
two per between leaf, none for exists/not_exists, one per other leaf
(specification-side count for comparison with the code). -/
def specValueSlots : CondExpr → Nat
  | .leaf _ op _ =>
    if op = "between" then 2
    else if op = "exists" ∨ op = "not_exists" then 0
    else 1
  | .logic l _ r => specValueSlots l + specValueSlots r
  | .notE inner => specValueSlots inner

theorem nextPfx_data (p : String) (k : Nat) :
    (nextPfx p k).data = p.data ++ '_' :: (natToHexString k).data := by
  rw [nextPfx, String.data_append, String.data_append,
    show ("_" : String).data = ['_'] from rfl, List.append_assoc]
  rfl

theorem tag_append_data (t : String) (c : Char) (h : t.data = [c]) (q : String) :
    (t ++ q).data = c :: q.data := by
  rw [String.data_append, h]
  rfl

/-- Every placeholder emitted under the child prefix of position 0 has, as
seen from the parent prefix, a suffix starting with the digit 0. -/
theorem child_shape_zero {q : String} {k : String} {c : Char}
    (h : ∃ r, k.data = c :: ((nextPfx q 0).data ++ '_' :: r)) :
    ∃ r, k.data = c :: (q.data ++ '_' :: '0' :: '_' :: r) := by
  obtain ⟨r, hr⟩ := h
  refine ⟨r, ?_⟩
  rw [hr, nextPfx_data, show (natToHexString 0).data = ['0'] from rfl,
    List.append_assoc]
  rfl

/-- Every placeholder emitted under the child prefix of position 1 has, as
seen from the parent prefix, a suffix starting with the digit 1. -/
theorem child_shape_one {q : String} {k : String} {c : Char}
    (h : ∃ r, k.data = c :: ((nextPfx q 1).data ++ '_' :: r)) :
    ∃ r, k.data = c :: (q.data ++ '_' :: '1' :: '_' :: r) := by
  obtain ⟨r, hr⟩ := h
  refine ⟨r, ?_⟩
  rw [hr, nextPfx_data, show (natToHexString 1).data = ['1'] from rfl,
    List.append_assoc]
  rfl

theorem betweenL_data (p : String) :
    (":" ++ nextPfx p 0 ++ "_L").data
      = ':' :: (p.data ++ '_' :: ((natToHexString 0).data ++ ['_', 'L'])) := by
  rw [String.data_append, String.data_append, nextPfx_data,
    show (":" : String).data = [':'] from rfl,
    show ("_L" : String).data = ['_', 'L'] from rfl]
  simp

theorem betweenR_data (p : String) :
    (":" ++ nextPfx p 0 ++ "_R").data
      = ':' :: (p.data ++ '_' :: ((natToHexString 0).data ++ ['_', 'R'])) := by
  rw [String.data_append, String.data_append, nextPfx_data,
    show (":" : String).data = [':'] from rfl,
    show ("_R" : String).data = ['_', 'R'] from rfl]
  simp

theorem between_keys_ne (p : String) :
    ¬ (":" ++ nextPfx p 0 ++ "_L") = (":" ++ nextPfx p 0 ++ "_R") := by
  intro heq
  have hd := congrArg String.data heq
  rw [betweenL_data, betweenR_data] at hd
  injection hd with _ h2
  have h3 := List.append_cancel_left h2
  injection h3 with _ h4
  have h5 := List.append_cancel_left h4
  injection h5 with _ h6
  injection h6 with h7 _
  exact absurd h7 (by decide)

theorem tag_digit_ne (c : Char) (p : String) (r1 r2 : List Char) :
    c :: (p.data ++ '_' :: '0' :: r1) ≠ c :: (p.data ++ '_' :: '1' :: r2) := by
  intro h
  injection h with _ h2
  have h3 := List.append_cancel_left h2
  injection h3 with _ h4
  injection h4 with h5 _
  exact absurd h5 (by decide)

/-- Main invariant of buildConditionExpression: on success, every name
placeholder reads `#<prefix>_...`, every value placeholder reads
`:<prefix>_...`, both placeholder lists are duplicate-free, and their
sizes are exactly the per-leaf slot counts. -/
theorem buildCondExpr_ok_props :
    ∀ (e : CondExpr) (p : String) (c : CompiledExpression),
      buildConditionExpression e p = .ok c →
      (∀ k ∈ c.names.map Prod.fst, ∃ r, k.data = '#' :: (p.data ++ '_' :: r))
      ∧ (∀ k ∈ c.values.map Prod.fst, ∃ r, k.data = ':' :: (p.data ++ '_' :: r))
      ∧ (c.names.map Prod.fst).Nodup
      ∧ (c.values.map Prod.fst).Nodup
      ∧ c.names.length = specNameSlots e
      ∧ c.values.length = specValueSlots e := by
  intro e
  induction e with
  | leaf f op args =>
    intro p c h
    simp only [buildConditionExpression] at h
    split_ifs at h with h1 h2 h3 h4 h5
    · injection h with h'
      subst h'
      refine ⟨?_, ?_, by simp, by simp, by simp [specNameSlots], ?_⟩
      · intro k hk
        simp only [List.map_cons, List.map_nil, List.mem_singleton] at hk
        subst hk
        exact ⟨(natToHexString 0).data, by
          rw [tag_append_data "#" '#' rfl, nextPfx_data]⟩
      · intro k hk
        simp only [List.map_cons, List.map_nil, List.mem_singleton] at hk
        subst hk
        exact ⟨(natToHexString 0).data, by
          rw [tag_append_data ":" ':' rfl, nextPfx_data]⟩
      · have : ¬ op = "between" := by rcases h1 with h | h | h | h | h | h <;> simp [h]
        have h0 : ¬ (op = "exists" ∨ op = "not_exists") := by
          rcases h1 with h | h | h | h | h | h <;> simp [h]
        simp [specValueSlots, this, h0]
    · injection h with h'
      subst h'
      refine ⟨?_, ?_, by simp, by simp, by simp [specNameSlots], ?_⟩
      · intro k hk
        simp only [List.map_cons, List.map_nil, List.mem_singleton] at hk
        subst hk
        exact ⟨(natToHexString 0).data, by
          rw [tag_append_data "#" '#' rfl, nextPfx_data]⟩
      · intro k hk
        simp only [List.map_cons, List.map_nil, List.mem_singleton] at hk
        subst hk
        exact ⟨(natToHexString 0).data, by
          rw [tag_append_data ":" ':' rfl, nextPfx_data]⟩
      · simp [specValueSlots, h2]
    · injection h with h'
      subst h'
      refine ⟨?_, ?_, by simp, ?_, by simp [specNameSlots], by simp [specValueSlots, h3]⟩
      · intro k hk
        simp only [List.map_cons, List.map_nil, List.mem_singleton] at hk
        subst hk
        exact ⟨(natToHexString 0).data, by
          rw [tag_append_data "#" '#' rfl, nextPfx_data]⟩
      · intro k hk
        simp only [List.map_cons, List.map_nil, List.mem_cons,
          List.not_mem_nil, or_false] at hk
        rcases hk with hk | hk <;> subst hk
        · exact ⟨(natToHexString 0).data ++ ['_', 'L'], betweenL_data p⟩
        · exact ⟨(natToHexString 0).data ++ ['_', 'R'], betweenR_data p⟩
      · simp only [List.map_cons, List.map_nil, List.nodup_cons, List.mem_cons,
          List.not_mem_nil, or_false, List.mem_singleton, List.nodup_nil,
          and_true, List.not_mem_nil, not_false_iff]
        exact between_keys_ne p
    · injection h with h'
      subst h'
      refine ⟨?_, by simp, by simp, by simp, by simp [specNameSlots],
        by simp [specValueSlots, h4, show ¬ ("exists" = "between") by decide]⟩
      · intro k hk
        simp only [List.map_cons, List.map_nil, List.mem_singleton] at hk
        subst hk
        exact ⟨(natToHexString 0).data, by
          rw [tag_append_data "#" '#' rfl, nextPfx_data]⟩
    · injection h with h'
      subst h'
      refine ⟨?_, by simp, by simp, by simp, by simp [specNameSlots],
        by simp [specValueSlots, h5, show ¬ ("not_exists" = "between") by decide]⟩
      · intro k hk
        simp only [List.map_cons, List.map_nil, List.mem_singleton] at hk
        subst hk
        exact ⟨(natToHexString 0).data, by
          rw [tag_append_data "#" '#' rfl, nextPfx_data]⟩
  | logic l lop r ihl ihr =>
    intro p c h
    simp only [buildConditionExpression] at h
    cases hl : buildConditionExpression l (nextPfx p 0) with
    | error e1 =>
      rw [hl] at h
      exact Except.noConfusion h
    | ok first =>
      rw [hl] at h
      cases hr : buildConditionExpression r (nextPfx p 1) with
      | error e2 =>
        rw [hr] at h
        exact Except.noConfusion h
      | ok second =>
        rw [hr] at h
        injection h with h'
        subst h'
        obtain ⟨sn1, sv1, nd1, ndv1, ln1, lv1⟩ := ihl (nextPfx p 0) first hl
        obtain ⟨sn2, sv2, nd2, ndv2, ln2, lv2⟩ := ihr (nextPfx p 1) second hr
        refine ⟨?_, ?_, ?_, ?_, ?_, ?_⟩
        · intro k hk
          rw [List.map_append, List.mem_append] at hk
          rcases hk with hk | hk
          · obtain ⟨r0, hr0⟩ := child_shape_zero (sn1 k hk)
            exact ⟨'0' :: '_' :: r0, hr0⟩
          · obtain ⟨r1, hr1⟩ := child_shape_one (sn2 k hk)
            exact ⟨'1' :: '_' :: r1, hr1⟩
        · intro k hk
          rw [List.map_append, List.mem_append] at hk
          rcases hk with hk | hk
          · obtain ⟨r0, hr0⟩ := child_shape_zero (sv1 k hk)
            exact ⟨'0' :: '_' :: r0, hr0⟩
          · obtain ⟨r1, hr1⟩ := child_shape_one (sv2 k hk)
            exact ⟨'1' :: '_' :: r1, hr1⟩
        · rw [List.map_append, List.nodup_append]
          refine ⟨nd1, nd2, ?_⟩
          intro k hk1 hk2
          obtain ⟨r0, hr0⟩ := child_shape_zero (sn1 k hk1)
          obtain ⟨r1, hr1⟩ := child_shape_one (sn2 k hk2)
          exact tag_digit_ne '#' p ('_' :: r0) ('_' :: r1) (hr0 ▸ hr1 ▸ rfl)
        · rw [List.map_append, List.nodup_append]
          refine ⟨ndv1, ndv2, ?_⟩
          intro k hk1 hk2
          obtain ⟨r0, hr0⟩ := child_shape_zero (sv1 k hk1)
          obtain ⟨r1, hr1⟩ := child_shape_one (sv2 k hk2)
          exact tag_digit_ne ':' p ('_' :: r0) ('_' :: r1) (hr0 ▸ hr1 ▸ rfl)
        · simp [specNameSlots, ln1, ln2]
        · simp [specValueSlots, lv1, lv2]
  | notE inner ih =>
    intro p c h
    simp only [buildConditionExpression] at h
    cases hi : buildConditionExpression inner (nextPfx p 0) with
    | error e1 =>
      rw [hi] at h
      exact Except.noConfusion h
    | ok innerCompiled =>
      rw [hi] at h
      injection h with h'
      subst h'
      obtain ⟨sn, sv, nd, ndv, ln, lv⟩ := ih (nextPfx p 0) innerCompiled hi
      refine ⟨?_, ?_, nd, ndv, by simpa [specNameSlots] using ln,
        by simpa [specValueSlots] using lv⟩
      · intro k hk
        obtain ⟨r0, hr0⟩ := child_shape_zero (sn k hk)
        exact ⟨'0' :: '_' :: r0, hr0⟩
      · intro k hk
        obtain ⟨r0, hr0⟩ := child_shape_zero (sv k hk)
        exact ⟨'0' :: '_' :: r0, hr0⟩

/-- Claim C5: for every condition tree accepted by the compiler, the
compiled name-placeholder and value-placeholder maps are duplicate-free —
no two leaves emit the same placeholder string — and their sizes are
exactly the number of (leaf, role) pairs requiring one. -/
theorem c5_placeholder_uniqueness :
    ∀ (e : CondExpr) (c : CompiledExpression),
      buildConditionExpression e "C" = .ok c →
      (c.names.map Prod.fst).Nodup
      ∧ (c.values.map Prod.fst).Nodup
      ∧ c.names.length = specNameSlots e
      ∧ c.values.length = specValueSlots e := by
  intro e c h
  obtain ⟨_, _, nd, ndv, ln, lv⟩ := buildCondExpr_ok_props e "C" c h
  exact ⟨nd, ndv, ln, lv⟩

/-- The spec's nested-boolean scenario tree: the same field name under
both children of an OR. -/
def c5Tree : CondExpr :=
  .logic (.leaf "age" ">=" [.num 21]) .or (.leaf "age" "<" [.num 15])

def c5Compiled : CompiledExpression :=
  (buildConditionExpression c5Tree "C").toOption.getD
    { names := [], values := [], expression := "" }

/-- Witness for C5 on the nested-boolean scenario. -/
theorem c5_placeholder_uniqueness_witness :
    (c5Compiled.names.map Prod.fst).Nodup
    ∧ (c5Compiled.values.map Prod.fst).Nodup
    ∧ c5Compiled.names.length = specNameSlots c5Tree
    ∧ c5Compiled.values.length = specValueSlots c5Tree :=
  c5_placeholder_uniqueness c5Tree c5Compiled rfl

/- ### Claims C7 and C8: the operator set -/

/-- The leaf operator tokens the compiler's switch handles. -/
def leafOpRecognized (op : String) : Bool :=
  op == "=" || op == "<>" || op == "<" || op == "<=" || op == ">" || op == ">=" ||
  op == "begins_with" || op == "between" || op == "exists" || op == "not_exists"

/-- Whether every leaf operator in a tree is recognized. -/
def condOpsRecognized : CondExpr → Bool
  | .leaf _ op _ => leafOpRecognized op
  | .logic l _ r => condOpsRecognized l && condOpsRecognized r
  | .notE inner => condOpsRecognized inner

theorem compile_unknown_leaf (f op : String) (args : List CondOperand) (p : String)
    (h : leafOpRecognized op = false) :
    buildConditionExpression (.leaf f op args) p
      = .error ("Operator " ++ op ++ " is not defined") := by
  simp only [leafOpRecognized, Bool.or_eq_false_iff, beq_eq_false_iff_ne, ne_eq] at h
  obtain ⟨⟨⟨⟨⟨⟨⟨⟨⟨h1, h2⟩, h3⟩, h4⟩, h5⟩, h6⟩, h7⟩, h8⟩, h9⟩, h10⟩ := h
  simp [buildConditionExpression, h1, h2, h3, h4, h5, h6, h7, h8, h9, h10]

theorem compile_isOk_iff_recognized :
    ∀ (e : CondExpr) (p : String),
      (buildConditionExpression e p).isOk = condOpsRecognized e := by
  intro e
  induction e with
  | leaf f op args =>
    intro p
    rw [buildConditionExpression, condOpsRecognized]
    split_ifs with h1 h2 h3 h4 h5
    · rcases h1 with h | h | h | h | h | h <;> simp [h, leafOpRecognized, Except.isOk, Except.toBool]
    · simp [h2, leafOpRecognized, Except.isOk, Except.toBool]
    · simp [h3, leafOpRecognized, Except.isOk, Except.toBool]
    · simp [h4, leafOpRecognized, Except.isOk, Except.toBool]
    · simp [h5, leafOpRecognized, Except.isOk, Except.toBool]
    · rw [not_or] at h1
      obtain ⟨g1, g2⟩ := h1
      rw [not_or] at g2
      obtain ⟨g2, g3⟩ := g2
      rw [not_or] at g3
      obtain ⟨g3, g4⟩ := g3
      rw [not_or] at g4
      obtain ⟨g4, g5⟩ := g4
      rw [not_or] at g5
      obtain ⟨g5, g6⟩ := g5
      simp [leafOpRecognized, Except.isOk, Except.toBool,
        g1, g2, g3, g4, g5, g6, h2, h3, h4, h5]
  | logic l lop r ihl ihr =>
    intro p
    have h1 := ihl (nextPfx p 0)
    have h2 := ihr (nextPfx p 1)
    rw [buildConditionExpression, condOpsRecognized, ← h1, ← h2]
    cases buildConditionExpression l (nextPfx p 0) with
    | error e1 => simp [Except.isOk, Except.toBool]
    | ok first =>
      cases buildConditionExpression r (nextPfx p 1) with
      | error e2 => simp [Except.isOk, Except.toBool]
      | ok second => simp [Except.isOk, Except.toBool]
  | notE inner ih =>
    intro p
    have h1 := ih (nextPfx p 0)
    rw [buildConditionExpression, condOpsRecognized, ← h1]
    cases buildConditionExpression inner (nextPfx p 0) with
    | error e1 => simp [Except.isOk, Except.toBool]
    | ok innerCompiled => simp [Except.isOk, Except.toBool]

/-- Claim C7: a leaf with an unrecognized operator token makes compilation
fail at compile time with an error naming that token, and this is the only
failure: a compilation succeeds exactly when every leaf operator is
recognized. -/
theorem c7_unknown_operator_fails :
    (∀ (f op : String) (args : List CondOperand) (p : String),
      leafOpRecognized op = false →
      buildConditionExpression (.leaf f op args) p
        = .error ("Operator " ++ op ++ " is not defined"))
    ∧ (∀ (e : CondExpr) (p : String),
      (buildConditionExpression e p).isOk = condOpsRecognized e) :=
  ⟨compile_unknown_leaf, compile_isOk_iff_recognized⟩

/-- Witness for C7 at the operator token "size". -/
theorem c7_unknown_operator_fails_witness :
    buildConditionExpression (.leaf "tags" "size" []) "C"
      = .error "Operator size is not defined"
    ∧ (buildConditionExpression (.leaf "age" "=" [.num 1]) "C").isOk
      = condOpsRecognized (.leaf "age" "=" [.num 1]) :=
  ⟨c7_unknown_operator_fails.1 "tags" "size" [] "C" (by decide),
   c7_unknown_operator_fails.2 (.leaf "age" "=" [.num 1]) "C"⟩

/-- Claim C8 counterexample: compiling a `contains` (or `size`, or `in`)
leaf does not succeed with a function-call form — the compiler's switch
has no case for these tokens and throws its unknown-operator error. -/
theorem c8_counterexample_contains_rejected :
    buildConditionExpression (.leaf "tags" "contains" [.str "x"]) "C"
      = .error "Operator contains is not defined"
    ∧ buildConditionExpression (.leaf "tags" "size" [.num 3]) "C"
      = .error "Operator size is not defined"
    ∧ buildConditionExpression (.leaf "age" "in" [.num 1]) "C"
      = .error "Operator in is not defined" := by
  refine ⟨rfl, rfl, rfl⟩

/-- Claim C8 (amended): the compiler accepts exactly the leaf operators
=, <>, <, <=, >, >=, begins_with, between, exists, not_exists (plus the
AND/OR/NOT combinators); a leaf whose operator is contains, size or in is
rejected with the unknown-operator error. -/
theorem c8_accepted_operator_set :
    (∀ (f op : String) (args : List CondOperand) (p : String),
      leafOpRecognized op = true →
      (buildConditionExpression (.leaf f op args) p).isOk = true)
    ∧ (∀ (f : String) (args : List CondOperand) (p : String),
      buildConditionExpression (.leaf f "contains" args) p
        = .error "Operator contains is not defined"
      ∧ buildConditionExpression (.leaf f "size" args) p
        = .error "Operator size is not defined"
      ∧ buildConditionExpression (.leaf f "in" args) p
        = .error "Operator in is not defined") := by
  constructor
  · intro f op args p h
    rw [compile_isOk_iff_recognized]
    exact h
  · intro f args p
    exact ⟨compile_unknown_leaf f "contains" args p (by decide),
      compile_unknown_leaf f "size" args p (by decide),
      compile_unknown_leaf f "in" args p (by decide)⟩

/-- Witness for the amended C8 at begins_with and at a concrete contains
leaf. -/
theorem c8_accepted_operator_set_witness :
    (buildConditionExpression (.leaf "name" "begins_with" [.str "al"]) "C").isOk = true
    ∧ (buildConditionExpression (.leaf "tags" "contains" [.str "x"]) "FC"
        = .error "Operator contains is not defined"
      ∧ buildConditionExpression (.leaf "tags" "size" [.str "x"]) "FC"
        = .error "Operator size is not defined"
      ∧ buildConditionExpression (.leaf "tags" "in" [.str "x"]) "FC"
        = .error "Operator in is not defined") :=
  ⟨c8_accepted_operator_set.1 "name" "begins_with" [.str "al"] "C" (by decide),
   c8_accepted_operator_set.2 "tags" [.str "x"] "FC"⟩

/- ### Association-list lemmas for the batch engines -/

theorem objFind_isSome_iff {R : Type} (m : List (String × R)) (k : String) :
    ((m.find? fun p => p.1 = k).isSome = true) ↔ k ∈ m.map Prod.fst := by
  induction m with
  | nil => simp [List.find?]
  | cons p ms ih =>
    by_cases h : p.1 = k
    · simp [List.find?, h]
    · simp [List.find?, h, ih, Ne.symm h]

theorem objUpsert_fresh {R : Type} (m : List (String × R)) (k : String) (v : R)
    (h : k ∉ m.map Prod.fst) : objUpsert m k v = m ++ [(k, v)] := by
  rw [objUpsert, if_neg]
  intro hh
  exact h ((objFind_isSome_iff m k).mp hh)

theorem foldl_upsert_eq_append {R : Type} (keyOf : R → String) :
    ∀ (batch : List R) (acc : List (String × R)),
      (∀ r ∈ batch, keyOf r ∉ acc.map Prod.fst) →
      (batch.map keyOf).Nodup →
      batch.foldl (fun m r => objUpsert m (keyOf r) r) acc
        = acc ++ batch.map fun r => (keyOf r, r) := by
  intro batch
  induction batch with
  | nil => intro acc _ _; simp
  | cons r bs ih =>
    intro acc hfresh hnd
    rw [List.map_cons, List.nodup_cons] at hnd
    rw [List.foldl_cons, objUpsert_fresh _ _ _ (hfresh r (by simp)),
      ih (acc ++ [(keyOf r, r)]) ?fresh hnd.2, List.append_assoc]
    rfl
    case fresh =>
      intro r' hr' hin
      rw [List.map_append, List.mem_append] at hin
      rcases hin with hin | hin
      · exact hfresh r' (List.mem_cons_of_mem r hr') hin
      · simp only [List.map_cons, List.map_nil, List.mem_singleton] at hin
        exact hnd.1 (hin ▸ List.mem_map_of_mem keyOf hr')

theorem objErase_of_lookup {R : Type} :
    ∀ (m : List (String × R)) (k : String) (v : R),
      (m.map Prod.fst).Nodup → objLookup m k = some v →
      (objErase m k).length + 1 = m.length
      ∧ ((objErase m k).map Prod.fst).Nodup := by
  intro m
  induction m with
  | nil => intro k v _ h; simp [objLookup, List.find?] at h
  | cons p ms ih =>
    intro k v hnd h
    rw [List.map_cons, List.nodup_cons] at hnd
    by_cases hpk : p.1 = k
    · have hself : objErase ms k = ms := by
        rw [objErase, List.filter_eq_self]
        intro q hq
        simp only [decide_eq_true_eq]
        intro hq1
        exact hnd.1 (by rw [hpk, ← hq1]; exact List.mem_map_of_mem Prod.fst hq)
      have herase : objErase (p :: ms) k = ms := by
        rw [objErase, List.filter_cons_of_neg (by simp [hpk]), ← objErase, hself]
      rw [herase]
      exact ⟨by simp, hnd.2⟩
    · have hl : objLookup ms k = some v := by
        rw [objLookup] at h ⊢
        rw [List.find?_cons_of_neg _ (by simp [hpk])] at h
        exact h
      obtain ⟨hlen, hndE⟩ := ih k v hnd.2 hl
      have herase : objErase (p :: ms) k = p :: objErase ms k := by
        rw [objErase, List.filter_cons_of_pos (by simp [hpk]), ← objErase]
      rw [herase]
      refine ⟨by simp [← hlen], ?_⟩
      rw [List.map_cons, List.nodup_cons]
      refine ⟨fun hin => hnd.1 ?_, hndE⟩
      have hsub : List.Sublist ((objErase ms k).map Prod.fst) (ms.map Prod.fst) :=
        List.Sublist.map Prod.fst (List.filter_sublist ms)
      exact hsub.subset hin

theorem reportStep_fold {R : Type} :
    ∀ (ks : List String) (m : List (String × R)) (fl : List (R × String)),
      (m.map Prod.fst).Nodup →
      ((ks.foldl reportStep (m, fl)).1.length + (ks.foldl reportStep (m, fl)).2.length
        = m.length + fl.length)
      ∧ (((ks.foldl reportStep (m, fl)).1.map Prod.fst).Nodup) := by
  intro ks
  induction ks with
  | nil => intro m fl hnd; exact ⟨rfl, hnd⟩
  | cons k ks ih =>
    intro m fl hnd
    rw [List.foldl_cons]
    cases hlk : objLookup m k with
    | none =>
      rw [show reportStep (m, fl) k = (m, fl) by rw [reportStep]; rw [hlk]]
      exact ih m fl hnd
    | some v =>
      obtain ⟨he1, he2⟩ := objErase_of_lookup m k v hnd hlk
      rw [show reportStep (m, fl) k
        = (objErase m k, fl ++ [(v, "Item was not processed")]) by
          rw [reportStep]; rw [hlk]]
      obtain ⟨h1, h2⟩ := ih (objErase m k) (fl ++ [(v, "Item was not processed")]) he2
      refine ⟨?_, h2⟩
      rw [h1, List.length_append]
      simp
      omega

/-- The per-chunk partition: with pairwise-distinct composite keys, a
fulfilled putBatch accounts for every record of the chunk exactly once
across its put and failed lists. -/
theorem putBatchModel_partition {R : Type} (keyOf : R → String) (batch : List R)
    (calls : Nat → Except String (List String)) (resp : PutResponse R)
    (hnd : (batch.map keyOf).Nodup)
    (h : putBatchModel keyOf batch calls = .ok resp) :
    resp.put.length + resp.failed.length = batch.length := by
  rw [putBatchModel] at h
  cases h0 : calls 0 with
  | error e => rw [h0] at h; exact Except.noConfusion h
  | ok unprocessedFirst =>
    rw [h0] at h
    dsimp only at h
    cases hloop : writeRetryLoop calls 5 unprocessedFirst 0 with
    | error e => rw [hloop] at h; exact Except.noConfusion h
    | ok u =>
      rw [hloop] at h
      dsimp only at h
      injection h with h'
      subst h'
      have hmap : batch.foldl (fun m r => objUpsert m (keyOf r) r) []
          = batch.map fun r => (keyOf r, r) :=
        foldl_upsert_eq_append keyOf batch [] (by simp) hnd
      have hkeys : ((batch.map fun r => (keyOf r, r)).map Prod.fst) = batch.map keyOf := by
        rw [List.map_map]
        rfl
      have hrep := reportStep_fold unprocessedFirst
        (batch.map fun r => (keyOf r, r)) [] (by rw [hkeys]; exact hnd)
      simp only [objValues, reportUnprocessed, hmap, List.length_map]
      rw [List.length_nil, Nat.add_zero, List.length_map] at hrep
      simpa using hrep.1

/- ### chunksOf lemmas -/

theorem chunksOfFuel_flatten {α : Type} (size : Nat) (hs : 0 < size) :
    ∀ (fuel : Nat) (l : List α), l.length ≤ fuel →
      (chunksOfFuel size fuel l).flatten = l := by
  intro fuel
  induction fuel with
  | zero =>
    intro l hl
    rw [Nat.le_zero, List.length_eq_zero] at hl
    subst hl
    rfl
  | succ fuel ih =>
    intro l hl
    match l with
    | [] => rfl
    | a :: l' =>
      rw [chunksOfFuel, List.flatten_cons, ih ((a :: l').drop size) (by
        rw [List.length_drop]
        have := List.length_cons a l' ▸ hl
        simp at hl ⊢
        omega), List.take_append_drop]

theorem chunksOf_flatten {α : Type} (size : Nat) (hs : 0 < size) (l : List α) :
    (chunksOf size l).flatten = l :=
  chunksOfFuel_flatten size hs l.length l (Nat.le_refl _)

theorem chunk_keys_nodup {R : Type} (keyOf : R → String) :
    ∀ (L : List (List R)), ((L.flatten).map keyOf).Nodup →
      ∀ c ∈ L, (c.map keyOf).Nodup := by
  intro L
  induction L with
  | nil => intro _ c hc; exact absurd hc (List.not_mem_nil c)
  | cons c0 L ih =>
    intro hnd c hc
    rw [List.flatten_cons, List.map_append, List.nodup_append] at hnd
    rw [List.mem_cons] at hc
    rcases hc with rfl | hc
    · exact hnd.1
    · exact ih hnd.2.1 c hc

/- ### The putItems aggregation is the concatenation of independent
per-chunk outcomes -/

/-- The records a chunk contributes to the aggregated put list: none when
its putBatch rejected, its own put list otherwise. -/
def putChunkPut {R : Type} (keyOf : R → String)
    (store : Nat → Nat → Except String (List String)) (p : Nat × List R) : List R :=
  match putBatchModel keyOf p.2 (store p.1) with
  | .error _ => []
  | .ok resp => resp.put

/-- The failure entries a chunk contributes to the aggregated failed
list: every record paired with the rejection reason when its putBatch
rejected, its own failed list otherwise. -/
def putChunkFailed {R : Type} (keyOf : R → String)
    (store : Nat → Nat → Except String (List String)) (p : Nat × List R) :
    List (R × String) :=
  match putBatchModel keyOf p.2 (store p.1) with
  | .error e => p.2.map fun failedItem => (failedItem, e)
  | .ok resp => resp.failed

theorem putItems_foldl_shape {R : Type} (keyOf : R → String)
    (store : Nat → Nat → Except String (List String)) :
    ∀ (pairs : List (Nat × List R)) (acc : PutResponse R),
      (pairs.foldl (putChunkStep keyOf store) acc).put
        = acc.put ++ (pairs.map (putChunkPut keyOf store)).flatten
      ∧ (pairs.foldl (putChunkStep keyOf store) acc).failed
        = acc.failed ++ (pairs.map (putChunkFailed keyOf store)).flatten := by
  intro pairs
  induction pairs with
  | nil => intro acc; simp
  | cons p pairs ih =>
    intro acc
    rw [List.foldl_cons, List.map_cons, List.map_cons, List.flatten_cons,
      List.flatten_cons]
    obtain ⟨ih1, ih2⟩ := ih (putChunkStep keyOf store acc p)
    rw [ih1, ih2, putChunkStep, putChunkPut, putChunkFailed]
    cases putBatchModel keyOf p.2 (store p.1) with
    | error e => simp
    | ok resp => simp

/- ### Delete-side analogues -/

/-- The records a chunk contributes to the aggregated deleted list. -/
def deleteChunkDeleted {R : Type} (keyOf : R → String)
    (store : Nat → Nat → Except String (List String)) (p : Nat × List R) : List R :=
  match deleteBatchModel keyOf p.2 (store p.1) with
  | .error _ => []
  | .ok resp => resp.deleted

/-- The failure entries a chunk contributes to the aggregated failed list
of deleteItems. -/
def deleteChunkFailed {R : Type} (keyOf : R → String)
    (store : Nat → Nat → Except String (List String)) (p : Nat × List R) :
    List (R × String) :=
  match deleteBatchModel keyOf p.2 (store p.1) with
  | .error e => p.2.map fun failedItem => (failedItem, e)
  | .ok resp => resp.failed

theorem deleteItems_foldl_shape {R : Type} (keyOf : R → String)
    (store : Nat → Nat → Except String (List String)) :
    ∀ (pairs : List (Nat × List R)) (acc : DeleteResponse R),
      (pairs.foldl (deleteChunkStep keyOf store) acc).deleted
        = acc.deleted ++ (pairs.map (deleteChunkDeleted keyOf store)).flatten
      ∧ (pairs.foldl (deleteChunkStep keyOf store) acc).failed
        = acc.failed ++ (pairs.map (deleteChunkFailed keyOf store)).flatten := by
  intro pairs
  induction pairs with
  | nil => intro acc; simp
  | cons p pairs ih =>
    intro acc
    rw [List.foldl_cons, List.map_cons, List.map_cons, List.flatten_cons,
      List.flatten_cons]
    obtain ⟨ih1, ih2⟩ := ih (deleteChunkStep keyOf store acc p)
    rw [ih1, ih2, deleteChunkStep, deleteChunkDeleted, deleteChunkFailed]
    cases deleteBatchModel keyOf p.2 (store p.1) with
    | error e => simp
    | ok resp => simp

theorem deleteBatchModel_partition {R : Type} (keyOf : R → String) (batch : List R)
    (calls : Nat → Except String (List String)) (resp : DeleteResponse R)
    (hnd : (batch.map keyOf).Nodup)
    (h : deleteBatchModel keyOf batch calls = .ok resp) :
    resp.deleted.length + resp.failed.length = batch.length := by
  rw [deleteBatchModel] at h
  cases h0 : calls 0 with
  | error e => rw [h0] at h; exact Except.noConfusion h
  | ok unprocessedFirst =>
    rw [h0] at h
    dsimp only at h
    cases hloop : writeRetryLoop calls 5 unprocessedFirst 0 with
    | error e => rw [hloop] at h; exact Except.noConfusion h
    | ok u =>
      rw [hloop] at h
      dsimp only at h
      injection h with h'
      subst h'
      have hmap : batch.foldl (fun m r => objUpsert m (keyOf r) r) []
          = batch.map fun r => (keyOf r, r) :=
        foldl_upsert_eq_append keyOf batch [] (by simp) hnd
      simp [objValues, hmap]

/- ### Per-chunk and aggregated partition lemmas -/

theorem putChunk_partition {R : Type} (keyOf : R → String)
    (store : Nat → Nat → Except String (List String)) (p : Nat × List R)
    (hnd : (p.2.map keyOf).Nodup) :
    (putChunkPut keyOf store p).length + (putChunkFailed keyOf store p).length
      = p.2.length := by
  rw [putChunkPut, putChunkFailed]
  cases hb : putBatchModel keyOf p.2 (store p.1) with
  | error e => simp
  | ok resp => simpa using putBatchModel_partition keyOf p.2 (store p.1) resp hnd hb

theorem deleteChunk_partition {R : Type} (keyOf : R → String)
    (store : Nat → Nat → Except String (List String)) (p : Nat × List R)
    (hnd : (p.2.map keyOf).Nodup) :
    (deleteChunkDeleted keyOf store p).length
      + (deleteChunkFailed keyOf store p).length = p.2.length := by
  rw [deleteChunkDeleted, deleteChunkFailed]
  cases hb : deleteBatchModel keyOf p.2 (store p.1) with
  | error e => simp
  | ok resp => simpa using deleteBatchModel_partition keyOf p.2 (store p.1) resp hnd hb

theorem pairwise_flatten_length {R : Type}
    (f : Nat × List R → List R) (h : Nat × List R → List (R × String)) :
    ∀ (pairs : List (Nat × List R)),
      (∀ p ∈ pairs, (f p).length + (h p).length = p.2.length) →
      ((pairs.map f).flatten).length + ((pairs.map h).flatten).length
        = ((pairs.map fun p => p.2).flatten).length := by
  intro pairs
  induction pairs with
  | nil => intro _; simp
  | cons p ps ih =>
    intro hp
    rw [List.map_cons, List.map_cons, List.map_cons, List.flatten_cons,
      List.flatten_cons, List.flatten_cons, List.length_append,
      List.length_append, List.length_append]
    have h1 := hp p (List.mem_cons_self p ps)
    have h2 := ih fun q hq => hp q (List.mem_cons_of_mem p hq)
    omega

theorem enum_map_snd_flatten {α : Type} (L : List (List α)) :
    ((L.enum.map fun p => p.2).flatten) = L.flatten := by
  rw [show (L.enum.map fun p => p.2) = L.enum.map Prod.snd from rfl,
    List.enum_map_snd]

theorem enum_mem_snd {α : Type} {p : Nat × α} {l : List α} (hp : p ∈ l.enum) :
    p.2 ∈ l := by
  rw [List.mem_enum_iff_getElem?] at hp
  exact List.getElem?_mem hp

/- ### Claim C3: batch completeness -/

/-- Two distinct records sharing one composite key. -/
def c3Records : List (String × Nat) := [("K", 1), ("K", 2)]

/-- Claim C3 counterexample: with two input records carrying the same
partition+sort key, the de-duplication by composite key makes one record
vanish: the batch put returns one outcome for two inputs, so
succeeded + failed = 1 ≠ 2 = input length. -/
theorem c3_counterexample_duplicate_key :
    (putItemsModel Prod.fst c3Records (fun _ _ => .ok [])).put.length
      + (putItemsModel Prod.fst c3Records (fun _ _ => .ok [])).failed.length = 1
    ∧ c3Records.length = 2 :=
  ⟨by decide, by decide⟩

/-- Claim C3 (amended): for every input record list whose composite keys
are pairwise distinct, batch put and batch delete partition the input:
succeeded plus failed counts equal the input length, for every behaviour
of the store.  (With duplicate keys inside one chunk the later record
silently wins and the count drops — see the counterexample.) -/
theorem c3_batch_completeness_distinct_keys {R : Type} (keyOf : R → String)
    (records : List R) (store : Nat → Nat → Except String (List String))
    (hnd : (records.map keyOf).Nodup) :
    (putItemsModel keyOf records store).put.length
        + (putItemsModel keyOf records store).failed.length = records.length
    ∧ (deleteItemsModel keyOf records store).deleted.length
        + (deleteItemsModel keyOf records store).failed.length = records.length := by
  have hflat : (chunksOf 25 records).flatten = records :=
    chunksOf_flatten 25 (by norm_num) records
  have hnodups : ∀ c ∈ chunksOf 25 records, (c.map keyOf).Nodup :=
    chunk_keys_nodup keyOf (chunksOf 25 records) (by rw [hflat]; exact hnd)
  have hpairnd : ∀ p ∈ (chunksOf 25 records).enum, ((p.2).map keyOf).Nodup := by
    intro p hp
    exact hnodups p.2 (enum_mem_snd hp)
  constructor
  · obtain ⟨hput, hfail⟩ := putItems_foldl_shape keyOf store (chunksOf 25 records).enum
      { put := [], failed := [], hasFailures := false }
    show ((chunksOf 25 records).enum.foldl (putChunkStep keyOf store)
        { put := [], failed := [], hasFailures := false }).put.length
      + ((chunksOf 25 records).enum.foldl (putChunkStep keyOf store)
        { put := [], failed := [], hasFailures := false }).failed.length
      = records.length
    rw [hput, hfail, List.nil_append, List.nil_append,
      pairwise_flatten_length (putChunkPut keyOf store)
        (putChunkFailed keyOf store) (chunksOf 25 records).enum
        (fun p hp => putChunk_partition keyOf store p (hpairnd p hp)),
      enum_map_snd_flatten, hflat]
  · obtain ⟨hdel, hfail⟩ := deleteItems_foldl_shape keyOf store (chunksOf 25 records).enum
      { deleted := [], failed := [], hasFailures := false }
    show ((chunksOf 25 records).enum.foldl (deleteChunkStep keyOf store)
        { deleted := [], failed := [], hasFailures := false }).deleted.length
      + ((chunksOf 25 records).enum.foldl (deleteChunkStep keyOf store)
        { deleted := [], failed := [], hasFailures := false }).failed.length
      = records.length
    rw [hdel, hfail, List.nil_append, List.nil_append,
      pairwise_flatten_length (deleteChunkDeleted keyOf store)
        (deleteChunkFailed keyOf store) (chunksOf 25 records).enum
        (fun p hp => deleteChunk_partition keyOf store p (hpairnd p hp)),
      enum_map_snd_flatten, hflat]

/-- Witness for the amended C3 on two distinct-key records and a store
that reports one unprocessed key once. -/
theorem c3_batch_completeness_distinct_keys_witness :
    (putItemsModel Prod.fst [("A", 1), ("B", 2)]
        (fun _ call => if call = 0 then .ok ["A"] else .ok [])).put.length
      + (putItemsModel Prod.fst [("A", 1), ("B", 2)]
          (fun _ call => if call = 0 then .ok ["A"] else .ok [])).failed.length
      = 2
    ∧ (deleteItemsModel Prod.fst [("A", 1), ("B", 2)]
          (fun _ call => if call = 0 then .ok ["A"] else .ok [])).deleted.length
      + (deleteItemsModel Prod.fst [("A", 1), ("B", 2)]
          (fun _ call => if call = 0 then .ok ["A"] else .ok [])).failed.length
      = 2 :=
  c3_batch_completeness_distinct_keys Prod.fst [("A", 1), ("B", 2)]
    (fun _ call => if call = 0 then .ok ["A"] else .ok []) (by decide)

/- ### Claim C4: a rejected chunk is isolated -/

/-- Claim C4: putItems/deleteItems never throw (they are total functions
returning a response); when one chunk's putBatch/deleteBatch rejects,
every record of that chunk appears in the failed list paired with the
rejection reason, and the aggregate put/deleted and failed lists are
exactly the concatenations of the chunks' independent outcomes — a
rejected chunk contributes nothing to the succeeded list and does not
disturb its siblings. -/
theorem c4_rejected_chunk_isolated {R : Type} (keyOf : R → String)
    (records : List R) (store : Nat → Nat → Except String (List String)) :
    ((∀ pair ∈ (chunksOf 25 records).enum, ∀ err,
        putBatchModel keyOf pair.2 (store pair.1) = .error err →
        ∀ r ∈ pair.2, (r, err) ∈ (putItemsModel keyOf records store).failed)
      ∧ (putItemsModel keyOf records store).put
          = ((chunksOf 25 records).enum.map (putChunkPut keyOf store)).flatten
      ∧ (putItemsModel keyOf records store).failed
          = ((chunksOf 25 records).enum.map (putChunkFailed keyOf store)).flatten)
    ∧ ((∀ pair ∈ (chunksOf 25 records).enum, ∀ err,
        deleteBatchModel keyOf pair.2 (store pair.1) = .error err →
        ∀ r ∈ pair.2, (r, err) ∈ (deleteItemsModel keyOf records store).failed)
      ∧ (deleteItemsModel keyOf records store).deleted
          = ((chunksOf 25 records).enum.map (deleteChunkDeleted keyOf store)).flatten
      ∧ (deleteItemsModel keyOf records store).failed
          = ((chunksOf 25 records).enum.map (deleteChunkFailed keyOf store)).flatten) := by
  obtain ⟨hput, hfail⟩ := putItems_foldl_shape keyOf store (chunksOf 25 records).enum
    { put := [], failed := [], hasFailures := false }
  obtain ⟨hdel, hdfail⟩ := deleteItems_foldl_shape keyOf store (chunksOf 25 records).enum
    { deleted := [], failed := [], hasFailures := false }
  have hput' : (putItemsModel keyOf records store).put
      = ((chunksOf 25 records).enum.map (putChunkPut keyOf store)).flatten := by
    show ((chunksOf 25 records).enum.foldl (putChunkStep keyOf store)
      { put := [], failed := [], hasFailures := false }).put = _
    rw [hput, List.nil_append]
  have hfail' : (putItemsModel keyOf records store).failed
      = ((chunksOf 25 records).enum.map (putChunkFailed keyOf store)).flatten := by
    show ((chunksOf 25 records).enum.foldl (putChunkStep keyOf store)
      { put := [], failed := [], hasFailures := false }).failed = _
    rw [hfail, List.nil_append]
  have hdel' : (deleteItemsModel keyOf records store).deleted
      = ((chunksOf 25 records).enum.map (deleteChunkDeleted keyOf store)).flatten := by
    show ((chunksOf 25 records).enum.foldl (deleteChunkStep keyOf store)
      { deleted := [], failed := [], hasFailures := false }).deleted = _
    rw [hdel, List.nil_append]
  have hdfail' : (deleteItemsModel keyOf records store).failed
      = ((chunksOf 25 records).enum.map (deleteChunkFailed keyOf store)).flatten := by
    show ((chunksOf 25 records).enum.foldl (deleteChunkStep keyOf store)
      { deleted := [], failed := [], hasFailures := false }).failed = _
    rw [hdfail, List.nil_append]
  refine ⟨⟨?_, hput', hfail'⟩, ⟨?_, hdel', hdfail'⟩⟩
  · intro pair hpair err herr r hr
    rw [hfail']
    rw [List.mem_flatten]
    refine ⟨putChunkFailed keyOf store pair, List.mem_map_of_mem _ hpair, ?_⟩
    rw [putChunkFailed, herr]
    exact List.mem_map_of_mem (fun failedItem => (failedItem, err)) hr
  · intro pair hpair err herr r hr
    rw [hdfail']
    rw [List.mem_flatten]
    refine ⟨deleteChunkFailed keyOf store pair, List.mem_map_of_mem _ hpair, ?_⟩
    rw [deleteChunkFailed, herr]
    exact List.mem_map_of_mem (fun failedItem => (failedItem, err)) hr

/-- Twenty-six records, so the engine splits them into a chunk of 25 and a
chunk holding only record "25". -/
def c4Records : List String := (List.range 26).map toString

/-- A store that rejects every call of chunk 1 and reports nothing
unprocessed elsewhere. -/
def c4Store : Nat → Nat → Except String (List String) :=
  fun chunk _ => if chunk = 1 then .error "boom" else .ok []

/-- Witness for C4: the record of the rejected second chunk lands in the
failed list with the rejection reason, and both aggregates equal the
concatenated independent chunk outcomes. -/
theorem c4_rejected_chunk_isolated_witness :
    ("25", "boom") ∈ (putItemsModel id c4Records c4Store).failed
    ∧ (putItemsModel id c4Records c4Store).put
        = ((chunksOf 25 c4Records).enum.map (putChunkPut id c4Store)).flatten
    ∧ ("25", "boom") ∈ (deleteItemsModel id c4Records c4Store).failed
    ∧ (deleteItemsModel id c4Records c4Store).deleted
        = ((chunksOf 25 c4Records).enum.map (deleteChunkDeleted id c4Store)).flatten :=
  ⟨(c4_rejected_chunk_isolated id c4Records c4Store).1.1 (1, ["25"]) (by decide)
      "boom" rfl "25" (by decide),
   (c4_rejected_chunk_isolated id c4Records c4Store).1.2.1,
   (c4_rejected_chunk_isolated id c4Records c4Store).2.1 (1, ["25"]) (by decide)
      "boom" rfl "25" (by decide),
   (c4_rejected_chunk_isolated id c4Records c4Store).2.2.1⟩

/- ### Claim C9: key construction drops non-primitive values -/

/-- A configuration whose key field "flag" is also a shard-hash field. -/
def c9Cfg : KeyConfiguration :=
  { keys := ["name", "flag"], pfx := "P",
    shard := some { keys := ["flag"], count := 16 } }

def c9R1 : JsRecord :=
  fun k => if k = "name" then .str "x" else if k = "flag" then .obj else .undefined

def c9R2 : JsRecord :=
  fun k => if k = "name" then .str "x" else if k = "flag" then .null else .undefined

set_option maxRecDepth 8000 in
/-- Claim C9 counterexample: the two records differ only in the
configured field "flag", whose value is dropped from the key segments in
both (an object and null contribute no segment) — yet the keys differ,
because "flag" is also a shard-hash field and an object DOES feed the
shard hash (as "[object Object]") while null is skipped. -/
theorem c9_counterexample_shard_field :
    c9R1 "name" = c9R2 "name"
    ∧ buildKeyFieldSegment (c9R1 "flag") = none
    ∧ buildKeyFieldSegment (c9R2 "flag") = none
    ∧ buildKey c9Cfg c9R1 "_" none ≠ buildKey c9Cfg c9R2 "_" none := by
  refine ⟨by decide, by decide, by decide, by decide⟩

/-- Claim C9 (amended): buildKey is total by construction; a configured
field contributes its stringification when primitive, its ISO string when
a Date, and nothing otherwise; and two records that differ only in
configured fields dropped in both records produce identical keys,
provided each differing field is not among the shard-hash fields (objects
and arrays do feed the shard hash even though they contribute no key
segment). -/
theorem c9_buildKey_dropped_fields :
    (∀ (pfx k : String) (m : JsRecord) (d : String),
      buildKey { keys := [k], pfx := pfx, shard := none } m d none
        = match buildKeyFieldSegment (m k) with
          | some s => pfx ++ d ++ s
          | none => pfx)
    ∧ (∀ (cfg : KeyConfiguration) (m1 m2 : JsRecord) (d : String) (sh : Option Int),
      (∀ k, m1 k = m2 k
         ∨ (buildKeyFieldSegment (m1 k) = none ∧ buildKeyFieldSegment (m2 k) = none
            ∧ ∀ shardCfg, cfg.shard = some shardCfg → k ∉ shardCfg.keys)) →
      buildKey cfg m1 d sh = buildKey cfg m2 d sh) := by
  constructor
  · intro pfx k m d
    rw [buildKey]
    cases hseg : buildKeyFieldSegment (m k) with
    | none =>
      simp [hseg, String.intercalate]
      rfl
    | some s =>
      simp [hseg]
      rfl
  · intro cfg m1 m2 d sh hyp
    rw [buildKey, buildKey]
    have hfields : cfg.keys.filterMap (fun k => buildKeyFieldSegment (m1 k))
        = cfg.keys.filterMap fun k => buildKeyFieldSegment (m2 k) := by
      refine List.filterMap_congr ?_
      intro k _
      rcases hyp k with heq | ⟨hd1, hd2, _⟩
      · rw [heq]
      · rw [hd1, hd2]
    cases hs : cfg.shard with
    | none => rw [hfields]
    | some shardCfg =>
      have hshard : buildKeyShardSegment shardCfg m1 sh
          = buildKeyShardSegment shardCfg m2 sh := by
        rw [buildKeyShardSegment, buildKeyShardSegment]
        by_cases ht : shardArgTruthy sh = true
        · rw [if_pos ht, if_pos ht]
        · have hv : shardCfg.keys.filterMap
              (fun k => if jsNotEqUndefined (m1 k) then some (m1 k) else none)
              = shardCfg.keys.filterMap
                (fun k => if jsNotEqUndefined (m2 k) then some (m2 k) else none) := by
            refine List.filterMap_congr ?_
            intro k hk
            rcases hyp k with heq | ⟨_, _, hnot⟩
            · rw [heq]
            · exact absurd hk (hnot shardCfg hs)
          rw [if_neg ht, if_neg ht]
          simp only [hv]
      dsimp only
      rw [hfields, hshard]

/-- Records for the C9 witness: they differ only in the non-shard field
"extra", an array in one and absent in the other. -/
def c9W1 : JsRecord :=
  fun k => if k = "id" then .str "7" else if k = "extra" then .arr else .undefined

def c9W2 : JsRecord :=
  fun k => if k = "id" then .str "7" else .undefined

def c9WCfg : KeyConfiguration :=
  { keys := ["id", "extra"], pfx := "U", shard := none }

/-- Witness for the amended C9. -/
theorem c9_buildKey_dropped_fields_witness :
    buildKey { keys := ["id"], pfx := "U", shard := none } c9W1 "_" none
      = (match buildKeyFieldSegment (c9W1 "id") with
         | some s => "U" ++ "_" ++ s
         | none => "U")
    ∧ buildKey c9WCfg c9W1 "_" none = buildKey c9WCfg c9W2 "_" none :=
  ⟨c9_buildKey_dropped_fields.1 "U" "id" c9W1 "_",
   c9_buildKey_dropped_fields.2 c9WCfg c9W1 c9W2 "_" none (by
    intro k
    by_cases hk : k = "extra"
    · subst hk
      refine Or.inr ⟨by decide, by decide, ?_⟩
      intro shardCfg h
      exact Option.noConfusion h
    · refine Or.inl ?_
      by_cases hid : k = "id" <;> simp [c9W1, c9W2, hid, hk])⟩

/- ### Claim C10: unprocessed get keys are silently dropped -/

/-- A store that never processes anything: every batchGetItem call
returns no records and one still-unprocessed key. -/
def c10StubbornStore {R : Type} : Nat → List R × List String :=
  fun _ => ([], ["u"])

/-- A store that returns one record at exactly call index j and reports a
key unprocessed at every other call. -/
def c10LateStore {R : Type} (j : Nat) (r : R) : Nat → List R × List String :=
  fun k => if k = j then ([r], []) else ([], ["u"])

/-- Claim C10: getBatch retries unprocessed keys at most 10 times and
returns only gathered records — keys still unprocessed when the loop
gives up are silently dropped: against a store that never processes them,
the batch get returns an empty list (strictly shorter than a nonempty
input) with no error and no per-key failure report (the return type has
no failure channel); a record produced at the 10th retry (call index 10)
is still gathered, one produced only at call index 11 is never requested. -/
theorem c10_unprocessed_keys_silently_dropped {Q R : Type} :
    (∀ (queries : List Q),
      getBatchItemsModel queries (fun _ _ => (c10StubbornStore (R := R)) 0) = [])
    ∧ (∀ (queries : List Q), queries ≠ [] →
      (getBatchItemsModel queries (fun _ _ => (c10StubbornStore (R := R)) 0)).length
        < queries.length)
    ∧ (∀ (queries : List Q) (r : R),
      getBatchModel queries (c10LateStore 10 r) = [r])
    ∧ (∀ (queries : List Q) (r : R),
      getBatchModel queries (c10LateStore 11 r) = []) := by
  have hone : ∀ (queries : List Q),
      getBatchItemsModel queries (fun _ _ => (c10StubbornStore (R := R)) 0) = [] := by
    intro queries
    rw [getBatchItemsModel, List.flatten_eq_nil_iff]
    intro l hl
    rw [List.mem_map] at hl
    obtain ⟨p, _, hp⟩ := hl
    exact hp ▸ rfl
  refine ⟨hone, ?_, ?_, ?_⟩
  · intro queries hne
    rw [hone queries]
    simp [List.length_pos, hne]
  · intro queries r
    rfl
  · intro queries r
    rfl

/-- Witness for C10 on a single-key query list. -/
theorem c10_unprocessed_keys_silently_dropped_witness :
    getBatchItemsModel ([0] : List Nat) (fun _ _ => (c10StubbornStore (R := Nat)) 0) = []
    ∧ (getBatchItemsModel ([0] : List Nat)
        (fun _ _ => (c10StubbornStore (R := Nat)) 0)).length < ([0] : List Nat).length
    ∧ getBatchModel ([0] : List Nat) (c10LateStore 10 (7 : Nat)) = [7]
    ∧ getBatchModel ([0] : List Nat) (c10LateStore 11 (7 : Nat)) = [] :=
  ⟨c10_unprocessed_keys_silently_dropped.1 [0],
   c10_unprocessed_keys_silently_dropped.2.1 [0] (by decide),
   c10_unprocessed_keys_silently_dropped.2.2.1 [0] 7,
   c10_unprocessed_keys_silently_dropped.2.2.2 [0] 7⟩
